import Mathlib

/-!
Shallow embedding of the form validation / sanitization / submission core of
the vibe-coding-landing repository (src/utils/constants.ts, src/utils/validation.ts,
src/utils/database.ts, src/hooks/useSupabase.ts, src/hooks/useFormValidation.ts).

JavaScript strings are modelled as `List Char` (ASCII fragment: the `\s`
character class and `toUpperCase`/`toLowerCase` are modelled on their ASCII
behaviour, which covers every string the claims mention).
-/

namespace Vibe

/-- JavaScript whitespace class `\s` (ASCII fragment): space, tab, newline,
vertical tab, form feed, carriage return. -/
def jsWs (c : Char) : Bool :=
  c = ' ' || c = '\t' || c = '\n' || c = '\x0b' || c = '\x0c' || c = '\r'

/-- `String.prototype.trim`: drop whitespace from both ends. -/
def jsTrim (l : List Char) : List Char :=
  ((l.dropWhile jsWs).reverse.dropWhile jsWs).reverse

/-- `.replace(/<[^>]*>/g, '')`: each match runs from an unconsumed `<` to the
first following `>`; a `<` with no later `>` never matches and is kept. The
`fuel` argument only bounds the recursion (the list shrinks on every step, so
any `fuel ≥ l.length` computes the replacement). -/
def stripTagsFuel : Nat → List Char → List Char
  | 0, l => l
  | fuel + 1, l =>
    match l with
    | [] => []
    | c :: rest =>
      if c = '<' && rest.contains '>' then
        stripTagsFuel fuel ((rest.dropWhile (fun x => x ≠ '>')).tail)
      else
        c :: stripTagsFuel fuel rest

/-- The tag-stripping replacement itself. -/
def stripTags (l : List Char) : List Char :=
  stripTagsFuel l.length l

/-- `.replace(/\s+/g, ' ')`: every maximal whitespace run becomes one space.
`fuel` only bounds the recursion, as in `stripTagsFuel`. -/
def collapseWsFuel : Nat → List Char → List Char
  | 0, l => l
  | fuel + 1, l =>
    match l with
    | [] => []
    | c :: rest =>
      if jsWs c then ' ' :: collapseWsFuel fuel (rest.dropWhile jsWs)
      else c :: collapseWsFuel fuel rest

/-- The whitespace-normalizing replacement itself. -/
def collapseWs (l : List Char) : List Char :=
  collapseWsFuel l.length l

/-- `sanitizeInput` (validation.ts): trim, strip HTML-like tags, normalize
whitespace; non-strings / empty input map to the empty string. -/
def sanitizeInput (input : List Char) : List Char :=
  if input = [] then [] else collapseWs (stripTags (jsTrim input))

/-- `sanitizeEmail` (validation.ts): trim then lowercase. -/
def sanitizeEmail (email : List Char) : List Char :=
  if email = [] then [] else (jsTrim email).map Char.toLower

/-- `word.charAt(0).toUpperCase() + word.slice(1).toLowerCase()` from
`sanitizeName`. -/
def capitalizeWord (w : List Char) : List Char :=
  match w with
  | [] => []
  | c :: cs => Char.toUpper c :: cs.map Char.toLower

/-- `String.prototype.split(' ')`: split on every single space character,
keeping empty segments. -/
def splitSpace (l : List Char) : List (List Char) :=
  match l with
  | [] => [[]]
  | c :: rest =>
    if c = ' ' then [] :: splitSpace rest
    else
      match splitSpace rest with
      | [] => [[c]]
      | w :: ws => (c :: w) :: ws

/-- `Array.prototype.join(' ')`: concatenate with a single space between
consecutive elements. -/
def joinSpace : List (List Char) → List Char
  | [] => []
  | [w] => w
  | w :: ws => w ++ ' ' :: joinSpace ws

/-- `sanitizeName` (validation.ts): sanitizeInput, then capitalize each
space-separated word. -/
def sanitizeName (name : List Char) : List Char :=
  if name = [] then []
  else joinSpace ((splitSpace (sanitizeInput name)).map capitalizeWord)

/-- Character class `[^\s@]` of the email regex. -/
def emailChar (c : Char) : Bool := !jsWs c && c ≠ '@'

/-- Full match of `/^[^\s@]+@[^\s@]+\.[^\s@]+$/`: a nonempty `[^\s@]+` prefix,
the first `@`, then a remainder of `[^\s@]` characters containing a dot that is
neither its first nor its last character. -/
def emailPattern (l : List Char) : Bool :=
  let a := l.takeWhile (fun c => c ≠ '@')
  if a.length = l.length then false
  else
    let rest := l.drop (a.length + 1)
    !a.isEmpty && a.all emailChar && rest.all emailChar &&
      ((rest.drop 1).dropLast.contains '.')

/-- Full match of `/^[a-zA-Z\s'-]+$/` (name rule). -/
def nameChar (c : Char) : Bool :=
  ('a' ≤ c && c ≤ 'z') || ('A' ≤ c && c ≤ 'Z') || jsWs c ||
    c = Char.ofNat 39 || c = '-'

/-- Name pattern: one or more characters of the class. -/
def namePattern (l : List Char) : Bool :=
  !l.isEmpty && l.all nameChar

/-- Full match of `/^[\+]?[1-9][\d]{0,15}$/` (phone rule). -/
def phonePattern (l : List Char) : Bool :=
  let core := fun (r : List Char) =>
    match r with
    | [] => false
    | d :: ds => ('1' ≤ d && d ≤ '9') && ds.all (fun c => '0' ≤ c && c ≤ '9') &&
        ds.length ≤ 15
  match l with
  | '+' :: r => core r
  | _ => core l

/-- The form's field keys (src/types: FormData). -/
inductive Field where
  | name
  | email
  | subscribed_newsletter
  | message
  | company
  | phone
deriving DecidableEq, Repr

/-- JavaScript field-name strings, used in error messages. -/
def fieldName : Field → String
  | .name => "name"
  | .email => "email"
  | .subscribed_newsletter => "subscribed_newsletter"
  | .message => "message"
  | .company => "company"
  | .phone => "phone"

/-- A value handed to `validateField`: `string | boolean | undefined`. -/
inductive FieldValue where
  | str (s : List Char)
  | bool (b : Bool)
  | undefined
deriving DecidableEq, Repr

/-- One entry of `VALIDATION_RULES` (constants.ts). -/
structure FieldRules where
  minLength : Option Nat
  maxLength : Option Nat
  pattern : Option (List Char → Bool)
  required : Bool

/-- `VALIDATION_RULES` (constants.ts): rules exist for name, email, message,
company and phone only; there is no entry for subscribed_newsletter. -/
def VALIDATION_RULES : Field → Option FieldRules
  | .name => some ⟨some 2, some 50, some namePattern, true⟩
  | .email => some ⟨some 5, some 254, some emailPattern, true⟩
  | .message => some ⟨some 10, some 1000, none, false⟩
  | .company => some ⟨some 2, some 100, none, false⟩
  | .phone => some ⟨none, none, some phonePattern, false⟩
  | .subscribed_newsletter => none

/-- `ERROR_MESSAGES.required`. -/
def errRequired (f : String) : String := f ++ " is required"

/-- `ERROR_MESSAGES.minLength`. -/
def errMinLength (f : String) (min : Nat) : String :=
  f ++ " must be at least " ++ toString min ++ " characters long"

/-- `ERROR_MESSAGES.maxLength`. -/
def errMaxLength (f : String) (max : Nat) : String :=
  f ++ " must be no more than " ++ toString max ++ " characters long"

/-- `ERROR_MESSAGES.invalidEmail`. -/
def invalidEmailMsg : String := "Please enter a valid email address"

/-- `ERROR_MESSAGES.invalidPhone`. -/
def invalidPhoneMsg : String := "Please enter a valid phone number"

/-- `ERROR_MESSAGES.invalidName`. -/
def invalidNameMsg : String := "Name can only contain letters, spaces, hyphens, and apostrophes"

/-- `ERROR_MESSAGES.invalidFormat`. -/
def invalidFormatMsg (f : String) : String := "Invalid " ++ f ++ " format"

/-- A ValidationError record (src/types). -/
structure ValidationError where
  field : Field
  message : String
  code : String
deriving DecidableEq, Repr

/-- The pattern-failure message chosen inside `validateField`. -/
def patternMessage (field : Field) : String :=
  match field with
  | .email => invalidEmailMsg
  | .phone => invalidPhoneMsg
  | .name => invalidNameMsg
  | _ => invalidFormatMsg (fieldName field)

/-- `validateField` (validation.ts): rules lookup (missing rules yield an
INVALID_FIELD error), then the boolean shortcut, then undefined handling, the
required/optional empty checks on the trimmed value, and finally the
min-length, max-length and pattern checks in that order. -/
def validateField (field : Field) (value : FieldValue) : Option ValidationError :=
  match VALIDATION_RULES field with
  | none => some ⟨field, invalidFormatMsg (fieldName field), "INVALID_FIELD"⟩
  | some rules =>
    match value with
    | .bool _ => none
    | .undefined =>
      if rules.required then
        some ⟨field, errRequired (fieldName field), "REQUIRED_FIELD"⟩
      else none
    | .str s =>
      let t := jsTrim s
      if rules.required && t.isEmpty then
        some ⟨field, errRequired (fieldName field), "REQUIRED_FIELD"⟩
      else if !rules.required && t.isEmpty then
        none
      else
        match rules.minLength with
        | some m =>
          if t.length < m then
            some ⟨field, errMinLength (fieldName field) m, "MIN_LENGTH"⟩
          else
            match rules.maxLength with
            | some M =>
              if t.length > M then
                some ⟨field, errMaxLength (fieldName field) M, "MAX_LENGTH"⟩
              else
                match rules.pattern with
                | some p =>
                  if !p t then some ⟨field, patternMessage field, "INVALID_PATTERN"⟩
                  else none
                | none => none
            | none =>
              match rules.pattern with
              | some p =>
                if !p t then some ⟨field, patternMessage field, "INVALID_PATTERN"⟩
                else none
              | none => none
        | none =>
          match rules.maxLength with
          | some M =>
            if t.length > M then
              some ⟨field, errMaxLength (fieldName field) M, "MAX_LENGTH"⟩
            else
              match rules.pattern with
              | some p =>
                if !p t then some ⟨field, patternMessage field, "INVALID_PATTERN"⟩
                else none
              | none => none
          | none =>
            match rules.pattern with
            | some p =>
              if !p t then some ⟨field, patternMessage field, "INVALID_PATTERN"⟩
              else none
            | none => none

/-- FormData (src/types): name and email are required strings, the newsletter
flag is a required boolean, message/company/phone are optional strings
(`none` models both an absent key and an `undefined` value, which
`validateField` and `sanitizeFormData` treat identically). -/
structure FormData where
  name : List Char
  email : List Char
  subscribed_newsletter : Bool
  message : Option (List Char)
  company : Option (List Char)
  phone : Option (List Char)
deriving DecidableEq, Repr

/-- Key order of a fully-populated FormData object (`Object.keys`). -/
def formKeys : List Field :=
  [.name, .email, .subscribed_newsletter, .message, .company, .phone]

/-- The `formData[field]` lookup as seen by `validateFormData`. -/
def fieldValueOf (d : FormData) : Field → FieldValue
  | .name => .str d.name
  | .email => .str d.email
  | .subscribed_newsletter => .bool d.subscribed_newsletter
  | .message => match d.message with | some s => .str s | none => .undefined
  | .company => match d.company with | some s => .str s | none => .undefined
  | .phone => match d.phone with | some s => .str s | none => .undefined

/-- ValidationResult (src/types). -/
structure ValidationResult where
  isValid : Bool
  errors : List ValidationError
deriving DecidableEq, Repr

/-- `validateFormData` (validation.ts): validate every key, collect the errors
in key order, and set `isValid` to `errors.length === 0`. -/
def validateFormData (d : FormData) : ValidationResult :=
  let errors := formKeys.filterMap (fun f => validateField f (fieldValueOf d f))
  ⟨errors.isEmpty, errors⟩

/-- The `formData.message ? sanitizeInput(formData.message) : undefined`
branches of `sanitizeFormData` (empty string is falsy). -/
def sanitizeOptional (v : Option (List Char)) : Option (List Char) :=
  match v with
  | none => none
  | some s => if s = [] then none else some (sanitizeInput s)

/-- `sanitizeFormData` (validation.ts). -/
def sanitizeFormData (d : FormData) : FormData :=
  { name := sanitizeName d.name
    email := sanitizeEmail d.email
    subscribed_newsletter := d.subscribed_newsletter
    message := sanitizeOptional d.message
    company := sanitizeOptional d.company
    phone := sanitizeOptional d.phone }

/-- Result record of `validateAndSanitizeFormData`. -/
structure SanitizedValidation where
  isValid : Bool
  errors : List ValidationError
  sanitizedData : FormData
deriving DecidableEq, Repr

/-- `validateAndSanitizeFormData` (validation.ts): sanitize first, then
validate the sanitized data. -/
def validateAndSanitizeFormData (d : FormData) : SanitizedValidation :=
  let s := sanitizeFormData d
  let r := validateFormData s
  ⟨r.isValid, r.errors, s⟩

/-- An error thrown inside the retry loop of database.ts: either a plain
`Error` (with a message) or a `PostgrestError` carrying a backend code and a
message. -/
inductive JsErr where
  | err (message : String)
  | pg (code : String) (message : String)
deriving DecidableEq, Repr

/-- `handleDatabaseError` (database.ts): a plain Error is returned unchanged;
a PostgrestError is translated by backend code, falling back to its own
message (or a generic one when that message is empty). The result is the
message of the returned Error. -/
def handleDatabaseError : JsErr → String
  | .err m => m
  | .pg code m =>
    if code = "23505" then "This email is already registered"
    else if code = "23502" then "Required fields are missing"
    else if code = "23503" then "Referenced record does not exist"
    else if code = "42P01" then "Database table not found"
    else if code = "42501" then "Insufficient database privileges"
    else if m = "" then "Database operation failed" else m

/-- RetryConfig (database.ts). -/
structure RetryConfig where
  maxAttempts : Nat
  delayMs : Nat
  backoffMultiplier : Nat
deriving DecidableEq, Repr

/-- `DEFAULT_RETRY_CONFIG` (database.ts). -/
def DEFAULT_RETRY_CONFIG : RetryConfig := ⟨3, 1000, 2⟩

/-- Observable outcome of a `withRetry` run: the value returned or error
thrown, the number of calls made to the wrapped function, and the list of
backoff delays awaited (in order). `result = none` models the degenerate
`maxAttempts = 0` loop that throws an undefined `lastError`. -/
structure RetryRun (α : Type) where
  result : Option (Except JsErr α)
  attempts : Nat
  delays : List Nat
deriving Repr

/-- The `for (attempt = 1; attempt <= maxAttempts; attempt++)` loop of
`withRetry` (database.ts), with the environment's behaviour on the n-th call
given by `fn n`. `fuel` is the number of attempts still allowed, so
`fuel = 0` inside an iteration means `attempt === config.maxAttempts`. -/
def withRetryGo {α : Type} (fn : Nat → Except JsErr α) (cfg : RetryConfig) :
    Nat → Nat → RetryRun α
  | _, 0 => ⟨none, 0, []⟩
  | attempt, fuel + 1 =>
    match fn attempt with
    | .ok a => ⟨some (.ok a), 1, []⟩
    | .error e =>
      if fuel = 0 then ⟨some (.error e), 1, []⟩
      else
        let d := cfg.delayMs * cfg.backoffMultiplier ^ (attempt - 1)
        let rest := withRetryGo fn cfg (attempt + 1) fuel
        ⟨rest.result, rest.attempts + 1, d :: rest.delays⟩

/-- `withRetry` (database.ts). -/
def withRetry {α : Type} (fn : Nat → Except JsErr α) (cfg : RetryConfig) : RetryRun α :=
  withRetryGo fn cfg 1 cfg.maxAttempts

/-- DatabaseResult (database.ts). -/
structure DatabaseResult (α : Type) where
  data : Option α
  error : Option String
  success : Bool
deriving Repr

/-- `submitInterestForm` (database.ts) in configured mode, with the remote
insert's behaviour on the n-th attempt given by `remote n`: runs the insert
under `withRetry` with the default config; a thrown error is translated by
`handleDatabaseError` into a failure result. Also returns the retry trace. -/
def submitInterestForm {α : Type} (remote : Nat → Except JsErr α) :
    DatabaseResult α × Nat × List Nat :=
  let run := withRetry remote DEFAULT_RETRY_CONFIG
  match run.result with
  | some (.ok a) => (⟨some a, none, true⟩, run.attempts, run.delays)
  | some (.error e) => (⟨none, some (handleDatabaseError e), false⟩, run.attempts, run.delays)
  | none => (⟨none, none, false⟩, run.attempts, run.delays)

/-- State of `useFormSubmission` (useSupabase.ts). -/
structure SubmissionState where
  loading : Bool
  success : Bool
  error : Option String
  data : Option (FormData × String)
deriving DecidableEq, Repr

/-- The initial (and reset) submission state. -/
def initialSubmissionState : SubmissionState := ⟨false, false, none, none⟩

/-- A `useFormSubmission` controller instance: the hook state together with
the auto-reset timeout handle (`resetTimeoutRef`), modelled as the armed
delay, and a count of network submission calls issued so far. -/
structure SubmissionController where
  state : SubmissionState
  autoResetTimer : Option Nat
  networkCalls : Nat
deriving DecidableEq, Repr

/-- A fresh `useFormSubmission` instance. -/
def initialSubmissionController : SubmissionController := ⟨initialSubmissionState, none, 0⟩

/-- The synchronous prefix of `useFormSubmission.submit` up to its `await` of
`submitInterestForm`: it unconditionally sets loading and issues the network
submission call — the function body contains no check of `loading` or any
other in-flight guard before the call. -/
def submitInvoke (c : SubmissionController) : SubmissionController :=
  { c with
      state := { c.state with loading := true, error := none, success := false }
      networkCalls := c.networkCalls + 1 }

/-- `submitInvoke` iterated: n submit() invocations in immediate succession,
none of whose network responses has arrived yet. -/
def submitInvokeN : Nat → SubmissionController → SubmissionController
  | 0, c => c
  | n + 1, c => submitInvokeN n (submitInvoke c)

/-- The `options.resetDelay || 5000` default. -/
def effectiveResetDelay (resetDelay : Option Nat) : Nat :=
  match resetDelay with
  | some d => if d = 0 then 5000 else d
  | none => 5000

/-- The success continuation of `useFormSubmission.submit` once
`submitInterestForm` resolves successfully: record the data, and — unless
`options.autoReset === false` — arm the auto-reset timeout. -/
def submitResolveSuccess (autoReset : Bool) (resetDelay : Option Nat)
    (rec : FormData × String) (c : SubmissionController) : SubmissionController :=
  { c with
      state := ⟨false, true, none, some rec⟩
      autoResetTimer :=
        if autoReset then some (effectiveResetDelay resetDelay) else c.autoResetTimer }

/-- The failure continuation of `useFormSubmission.submit`: record the error
message. -/
def submitResolveFailure (msg : String) (c : SubmissionController) : SubmissionController :=
  { c with state := ⟨false, false, some msg, none⟩ }

/-- `useFormSubmission.reset` (useSupabase.ts): it only resets the state via
`setState`; it does not touch `resetTimeoutRef`, so an armed auto-reset
timeout stays armed. -/
def submissionReset (c : SubmissionController) : SubmissionController :=
  { c with state := initialSubmissionState }

/-- The auto-reset timeout firing: its callback is `reset`, and the consumed
timeout handle is gone afterwards. -/
def autoResetFire (c : SubmissionController) : SubmissionController :=
  match c.autoResetTimer with
  | some _ => { c with state := initialSubmissionState, autoResetTimer := none }
  | none => c

/-- The unmount cleanup effect of `useFormSubmission`: `clearTimeout` on
`resetTimeoutRef`. -/
def submissionUnmountCleanup (c : SubmissionController) : SubmissionController :=
  { c with autoResetTimer := none }

/-- Validation state of `useFormValidation` (useFormValidation.ts). -/
structure FormValidationState where
  errors : List ValidationError
  isValid : Bool
  isDirty : Bool
  touched : List Field
deriving DecidableEq, Repr

/-- The initial `validationState` of `useFormValidation`. -/
def initialValidationState : FormValidationState := ⟨[], false, false, []⟩

/-- `validateSingleField` of `useFormValidation`: drop the field's previous
error, append the fresh one (if any), and recompute `isValid` from the new
error list. -/
def validateSingleFieldUpd (f : Field) (v : FieldValue)
    (st : FormValidationState) : FormValidationState :=
  let newErrors := st.errors.filter (fun e => e.field ≠ f) ++
    (match validateField f v with | some e => [e] | none => [])
  { st with errors := newErrors, isValid := newErrors.isEmpty }

/-- `validateForm` of `useFormValidation`: validate (the sanitized) form data
and install the result. -/
def validateFormUpd (d : FormData) (st : FormValidationState) : FormValidationState :=
  let r := validateAndSanitizeFormData d
  { st with errors := r.errors, isValid := r.isValid }

/-- `clearFieldError` of `useFormValidation`. -/
def clearFieldErrorUpd (f : Field) (st : FormValidationState) : FormValidationState :=
  let filtered := st.errors.filter (fun e => e.field ≠ f)
  { st with errors := filtered, isValid := filtered.isEmpty }

/-- `clearAllErrors` of `useFormValidation`. -/
def clearAllErrorsUpd (st : FormValidationState) : FormValidationState :=
  { st with errors := [], isValid := true }

/-- A `useFormValidation` controller instance: form data, validation state and
the debounce timeout handle (`debounceTimerRef`), modelled as the armed
delay. -/
structure ValidationController where
  formData : FormData
  vstate : FormValidationState
  debounceTimer : Option Nat
deriving DecidableEq, Repr

/-- `resetForm` of `useFormValidation`: form data back to `initialData`, the
validation state back to its initial value, and `clearTimeout` on the pending
debounce timer. -/
def resetFormUpd (initialData : FormData) (_c : ValidationController) : ValidationController :=
  ⟨initialData, initialValidationState, none⟩

/-- The `email.trim().toLowerCase()` value that `useEmailCheck` hands to
`checkEmailExists`. -/
def emailCheckValue (email : List Char) : List Char :=
  (jsTrim email).map Char.toLower

/-- One fired debounce timer of `useEmailCheck.performCheck`: an existence
check is issued only when the email is neither empty nor whitespace-only, and
it is issued for the trimmed, lowercased value. -/
def performCheckOf (ft : Nat) (email : List Char) : Option (Nat × List Char) :=
  if email = [] || jsTrim email = [] then none
  else some (ft, emailCheckValue email)

/-- Processing of a sequence of `checkEmail(e)` calls (one per email
keystroke), each tagged with its call time: a previously armed debounce timer
that is already due by the time of the next call has fired; otherwise the new
call's `clearTimeout` cancels it, and a fresh timer is armed one debounce
delay after the call. Returns the timers that fired during the sequence and
the timer still pending afterwards. -/
def runEmailEvents (delay : Nat) :
    List (Nat × List Char) → Option (Nat × List Char) →
    List (Nat × List Char) × Option (Nat × List Char)
  | [], timer => ([], timer)
  | (t, e) :: rest, timer =>
    let fired :=
      match timer with
      | some (ft, fe) => if ft ≤ t then [(ft, fe)] else []
      | none => []
    let next := runEmailEvents delay rest (some (t + delay, e))
    (fired ++ next.1, next.2)

/-- The complete list of email-existence network checks produced by a call
sequence, once the system quiesces (the last pending timer fires). -/
def emailChecksOf (delay : Nat) (events : List (Nat × List Char)) : List (Nat × List Char) :=
  let run := runEmailEvents delay events none
  (run.1 ++ (match run.2 with | some (ft, fe) => [(ft, fe)] | none => [])).filterMap
    (fun p => performCheckOf p.1 p.2)

/-- All whitespace characters of a string are plain spaces. -/
def wsIsSpace (l : List Char) : Prop := ∀ c ∈ l, jsWs c = true → c = ' '

/-- No two adjacent whitespace characters (no whitespace runs of length 2). -/
def noWsRun (l : List Char) : Prop :=
  l.Chain' (fun a b => ¬(jsWs a = true ∧ jsWs b = true))

/-- The string contains no HTML-tag opener, so tag stripping is inert. -/
def tagFree (l : List Char) : Prop := '<' ∉ l

/-- Restriction on an optional field under which a second sanitization pass
is inert: absent, empty, or tag-free with a non-whitespace character. -/
def optFieldOk : Option (List Char) → Prop
  | none => True
  | some s => s = [] ∨ (tagFree s ∧ jsTrim s ≠ [])

instance (l : List Char) : Decidable (tagFree l) := by
  unfold tagFree
  infer_instance

instance : (v : Option (List Char)) → Decidable (optFieldOk v)
  | none => isTrue trivial
  | some s => by
      unfold optFieldOk
      infer_instance

/-- A concrete FormData satisfying the amended idempotence conditions. -/
def c4WitnessInput : FormData :=
  ⟨"  john   doe ".toList, " JOHN@Ex.com ".toList, true,
    some "hello  world".toList, none, some "+123".toList⟩

/-- The end-to-end example input of the spec (C5). -/
def c5Input : FormData :=
  ⟨"  john doe  ".toList, "JOHN@EX.COM".toList, true, none, none, none⟩

/-- A concrete successful-submission record used in scenario theorems. -/
def sampleRecord : FormData × String :=
  (⟨"John".toList, "j@x.com".toList, false, none, none, none⟩, "landing_page")

/-- A FormData whose message is a lone HTML tag, which sanitizes to the empty
string. -/
def tagOnlyMessageForm : FormData :=
  ⟨"John".toList, "j@x.com".toList, false, some "<a>".toList, none, none⟩

/-- Spec-side rules table for C6: required flags per the spec's table. -/
def specRequired : Field → Bool
  | .name => true
  | .email => true
  | _ => false

/-- Spec-side minimum lengths per the spec's table (C6). -/
def specMinLength : Field → Option Nat
  | .name => some 2
  | .email => some 5
  | .message => some 10
  | .company => some 2
  | _ => none

/-- Spec-side maximum lengths per the spec's table (C6). -/
def specMaxLength : Field → Option Nat
  | .name => some 50
  | .email => some 254
  | .message => some 1000
  | .company => some 100
  | _ => none

/-- Spec-side patterns per the spec's table (C6). -/
def specPattern : Field → Option (List Char → Bool)
  | .name => some namePattern
  | .email => some emailPattern
  | .phone => some phonePattern
  | _ => none

/-- The five fields governed by the rules table (C6). -/
def isRuleField (f : Field) : Bool :=
  f = .name || f = .email || f = .message || f = .company || f = .phone

/-- The spec's minimum-length rule is violated on the trimmed value. -/
def minViol (f : Field) (s : List Char) : Bool :=
  match specMinLength f with
  | some m => (jsTrim s).length < m
  | none => false

/-- The spec's maximum-length rule is violated on the trimmed value. -/
def maxViol (f : Field) (s : List Char) : Bool :=
  match specMaxLength f with
  | some m => (jsTrim s).length > m
  | none => false

/-- The spec's pattern rule is violated on the trimmed value. -/
def patViol (f : Field) (s : List Char) : Bool :=
  match specPattern f with
  | some p => !p (jsTrim s)
  | none => false

lemma withRetryGo_ok {α : Type} {fn : Nat → Except JsErr α} (cfg : RetryConfig)
    {attempt : Nat} {a : α} (h : fn attempt = .ok a) (fuel : Nat) :
    withRetryGo fn cfg attempt (fuel + 1) = ⟨some (.ok a), 1, []⟩ := by
  simp [withRetryGo, h]

lemma withRetryGo_err_last {α : Type} {fn : Nat → Except JsErr α} (cfg : RetryConfig)
    {attempt : Nat} {e : JsErr} (h : fn attempt = .error e) :
    withRetryGo fn cfg attempt 1 = ⟨some (.error e), 1, []⟩ := by
  simp [withRetryGo, h]

lemma withRetryGo_err_step {α : Type} {fn : Nat → Except JsErr α} (cfg : RetryConfig)
    {attempt : Nat} {e : JsErr} (h : fn attempt = .error e) (fuel : Nat) (hf : fuel ≠ 0) :
    withRetryGo fn cfg attempt (fuel + 1) =
      ⟨(withRetryGo fn cfg (attempt + 1) fuel).result,
       (withRetryGo fn cfg (attempt + 1) fuel).attempts + 1,
       (cfg.delayMs * cfg.backoffMultiplier ^ (attempt - 1)) ::
         (withRetryGo fn cfg (attempt + 1) fuel).delays⟩ := by
  simp [withRetryGo, h, hf]

lemma withRetryGo_attempts_le {α : Type} (fn : Nat → Except JsErr α) (cfg : RetryConfig) :
    ∀ (fuel attempt : Nat), (withRetryGo fn cfg attempt fuel).attempts ≤ fuel := by
  intro fuel
  induction fuel with
  | zero => intro attempt; simp [withRetryGo]
  | succ f ih =>
    intro attempt
    cases h : fn attempt with
    | ok a => rw [withRetryGo_ok cfg h]; simp
    | error e =>
      by_cases hf : f = 0
      · subst hf
        simp [withRetryGo, h]
      · rw [withRetryGo_err_step cfg h f hf]
        have := ih (attempt + 1)
        show (withRetryGo fn cfg (attempt + 1) f).attempts + 1 ≤ f + 1
        omega

lemma withRetryGo_allfail {α : Type} (err : Nat → JsErr) (cfg : RetryConfig) :
    ∀ (fuel : Nat), 1 ≤ fuel → ∀ (attempt : Nat), 1 ≤ attempt →
      (withRetryGo (α := α) (fun n => .error (err n)) cfg attempt fuel).result =
        some (.error (err (attempt + fuel - 1))) ∧
      (withRetryGo (α := α) (fun n => .error (err n)) cfg attempt fuel).attempts = fuel ∧
      (withRetryGo (α := α) (fun n => .error (err n)) cfg attempt fuel).delays =
        (List.range (fuel - 1)).map
          (fun i => cfg.delayMs * cfg.backoffMultiplier ^ (attempt - 1 + i)) := by
  intro fuel
  induction fuel with
  | zero => omega
  | succ f ih =>
    intro _ attempt ha
    by_cases hf : f = 0
    · subst hf
      rw [show (0 + 1 : Nat) = 1 from rfl, withRetryGo_err_last cfg (e := err attempt) rfl]
      simp
    · rw [withRetryGo_err_step cfg (e := err attempt) rfl f hf]
      obtain ⟨hr, hn, hd⟩ := ih (by omega) (attempt + 1) (by omega)
      refine ⟨?_, ?_, ?_⟩
      · show (withRetryGo _ cfg (attempt + 1) f).result = _
        rw [hr]; congr 3; omega
      · show (withRetryGo _ cfg (attempt + 1) f).attempts + 1 = f + 1
        omega
      · show _ :: (withRetryGo _ cfg (attempt + 1) f).delays = _
        rw [hd]
        rw [show (f + 1 - 1) = (f - 1) + 1 by omega, List.range_succ_eq_map]
        simp only [List.map_cons, List.map_map]
        congr 1
        apply List.map_congr_left
        intro a _
        simp only [Function.comp_apply]
        congr 2
        omega

lemma submitInvokeN_networkCalls (n : Nat) :
    ∀ c, (submitInvokeN n c).networkCalls = c.networkCalls + n := by
  induction n with
  | zero => intro c; rfl
  | succ k ih =>
    intro c
    show (submitInvokeN k (submitInvoke c)).networkCalls = c.networkCalls + (k + 1)
    rw [ih (submitInvoke c)]
    simp [submitInvoke]
    omega

/-- C1, counterexample: with a remote insert that always answers with the
unique-violation code 23505, `submitInterestForm` makes 3 network attempts —
not the single attempt with zero retries that the claim states — although it
does end with success=false and the DuplicateEmail message. `withRetry`
retries a 23505 error like any other error. -/
theorem C1_counterexample :
    (submitInterestForm (fun _ =>
        (.error (.pg "23505" "duplicate key value violates unique constraint")
          : Except JsErr Nat))).2.1 = 3 ∧
    (submitInterestForm (fun _ =>
        (.error (.pg "23505" "duplicate key value violates unique constraint")
          : Except JsErr Nat))).2.1 ≠ 1 ∧
    (submitInterestForm (fun _ =>
        (.error (.pg "23505" "duplicate key value violates unique constraint")
          : Except JsErr Nat))).1.success = false ∧
    (submitInterestForm (fun _ =>
        (.error (.pg "23505" "duplicate key value violates unique constraint")
          : Except JsErr Nat))).1.error = some "This email is already registered" := by
  decide

/-- C1, amended: when the remote insert persistently fails with the
unique-violation code 23505, `submitInterestForm` returns success=false with
the message "This email is already registered", but only after making
maxAttempts (default 3) network attempts, with backoff delays of 1000 ms and
2000 ms between them — the uniqueness violation is retried like any other
error. -/
theorem C1_duplicate_retry {α : Type} (remote : Nat → Except JsErr α) (m : String)
    (h : ∀ n, remote n = .error (.pg "23505" m)) :
    (submitInterestForm remote).1.success = false ∧
    (submitInterestForm remote).1.error = some "This email is already registered" ∧
    (submitInterestForm remote).2.1 = DEFAULT_RETRY_CONFIG.maxAttempts ∧
    (submitInterestForm remote).2.2 = [1000, 2000] := by
  have hfn : remote = fun n => .error (.pg "23505" m) := funext h
  subst hfn
  obtain ⟨hr, hn, hd⟩ :=
    withRetryGo_allfail (α := α) (fun _ => JsErr.pg "23505" m) DEFAULT_RETRY_CONFIG
      3 (by decide) 1 (by decide)
  have hres : (withRetry (α := α) (fun n => .error (.pg "23505" m)) DEFAULT_RETRY_CONFIG).result
      = some (.error (.pg "23505" m)) := hr
  have hatt : (withRetry (α := α) (fun n => .error (.pg "23505" m)) DEFAULT_RETRY_CONFIG).attempts
      = 3 := hn
  have hdel : (withRetry (α := α) (fun n => .error (.pg "23505" m)) DEFAULT_RETRY_CONFIG).delays
      = [1000, 2000] := by
    rw [show (withRetry (α := α) (fun n => .error (.pg "23505" m)) DEFAULT_RETRY_CONFIG).delays
        = (withRetryGo (α := α) (fun n => .error (.pg "23505" m)) DEFAULT_RETRY_CONFIG 1 3).delays
      from rfl, hd]
    decide
  have hmain : submitInterestForm (fun _ => (Except.error (JsErr.pg "23505" m) : Except JsErr α)) =
      (⟨none, some "This email is already registered", false⟩, 3, [1000, 2000]) := by
    simp only [submitInterestForm, hres, hatt, hdel]
    simp [handleDatabaseError]
  refine ⟨?_, ?_, ?_, ?_⟩ <;> (rw [hmain]; try rfl)

/-- Witness for C1: the amended theorem applied to a concrete always-duplicate
remote. -/
theorem C1_duplicate_retry_witness :
    (submitInterestForm (fun _ => (.error (.pg "23505" "dup") : Except JsErr Nat))).1.success = false ∧
    (submitInterestForm (fun _ => (.error (.pg "23505" "dup") : Except JsErr Nat))).1.error =
      some "This email is already registered" ∧
    (submitInterestForm (fun _ => (.error (.pg "23505" "dup") : Except JsErr Nat))).2.1 =
      DEFAULT_RETRY_CONFIG.maxAttempts ∧
    (submitInterestForm (fun _ => (.error (.pg "23505" "dup") : Except JsErr Nat))).2.2 =
      [1000, 2000] :=
  C1_duplicate_retry (fun _ => (.error (.pg "23505" "dup") : Except JsErr Nat)) "dup"
    (fun _ => rfl)

/-- C2, counterexample: two submit() invocations in immediate succession, the
first still pending, make 2 network submission calls, not the 1 call the
claim requires — `useFormSubmission.submit` has no in-flight guard. -/
theorem C2_counterexample :
    (submitInvokeN 2 initialSubmissionController).networkCalls = 2 ∧
    (submitInvokeN 2 initialSubmissionController).networkCalls ≠ 1 := by
  decide

/-- C2, amended: a second submit() while the first is pending is not a no-op;
every submit() invocation unconditionally issues its own network submission,
so n immediate invocations on a fresh controller perform exactly n network
calls. Double-submit is only discouraged at the UI layer (the submit button is
rendered disabled while loading), not inside submit(). -/
theorem C2_no_double_submit_guard (n : Nat) :
    (submitInvokeN n initialSubmissionController).networkCalls = n := by
  simpa [initialSubmissionController] using
    submitInvokeN_networkCalls n initialSubmissionController

/-- Witness for C2's amended theorem at n = 3. -/
theorem C2_no_double_submit_guard_witness :
    (submitInvokeN 3 initialSubmissionController).networkCalls = 3 :=
  C2_no_double_submit_guard 3

/-- C3: a SubmissionClient configured with maxAttempts=3, initialDelay=100,
multiplier=2 whose remote call fails twice then succeeds returns the
successful result on the 3rd attempt, after backoff delays of 100 ms and
200 ms; moreover at most maxAttempts calls are ever made, and when every
attempt fails the last error is the one surfaced. -/
theorem C3_retry_backoff {α : Type} (remote : Nat → Except JsErr α)
    (e1 e2 : JsErr) (a : α)
    (h1 : remote 1 = .error e1) (h2 : remote 2 = .error e2) (h3 : remote 3 = .ok a) :
    withRetry remote ⟨3, 100, 2⟩ = ⟨some (.ok a), 3, [100, 200]⟩ ∧
    (∀ (fn : Nat → Except JsErr α) (cfg : RetryConfig),
      (withRetry fn cfg).attempts ≤ cfg.maxAttempts) ∧
    (∀ (err : Nat → JsErr) (cfg : RetryConfig), 1 ≤ cfg.maxAttempts →
      (withRetry (α := α) (fun n => .error (err n)) cfg).result =
        some (.error (err cfg.maxAttempts))) := by
  refine ⟨?_, ?_, ?_⟩
  · have s1 := withRetryGo_err_step (⟨3, 100, 2⟩ : RetryConfig) h1 2 (by decide)
    have s2 := withRetryGo_err_step (⟨3, 100, 2⟩ : RetryConfig) h2 1 (by decide)
    have s3 := withRetryGo_ok (⟨3, 100, 2⟩ : RetryConfig) h3 0
    unfold withRetry
    show withRetryGo remote ⟨3, 100, 2⟩ 1 (2 + 1) = _
    rw [s1]
    show _ = (⟨some (.ok a), 3, [100, 200]⟩ : RetryRun α)
    rw [show (2 : Nat) = 1 + 1 from rfl, s2, show (1 : Nat) = 0 + 1 from rfl, s3]
    rfl
  · intro fn cfg
    exact withRetryGo_attempts_le fn cfg cfg.maxAttempts 1
  · intro err cfg hmax
    have hres := (withRetryGo_allfail (α := α) err cfg cfg.maxAttempts hmax 1 (by omega)).1
    unfold withRetry
    rw [hres]
    have h1m : 1 + cfg.maxAttempts - 1 = cfg.maxAttempts := by omega
    rw [h1m]

/-- Witness for C3: a concrete remote failing on attempts 1 and 2 and
succeeding on attempt 3 under the claim's configuration. -/
theorem C3_retry_backoff_witness :
    withRetry (fun n => if n ≤ 2 then (.error (.err "boom") : Except JsErr Nat) else .ok 42)
      ⟨3, 100, 2⟩ = ⟨some (.ok 42), 3, [100, 200]⟩ :=
  (C3_retry_backoff (fun n => if n ≤ 2 then (.error (.err "boom") : Except JsErr Nat) else .ok 42)
    (.err "boom") (.err "boom") 42 rfl rfl rfl).1

/-- C5: on the spec's end-to-end input the sanitized data is exactly as
claimed (name "John Doe", email "john@ex.com", newsletter true), but the
validation of the sanitized data yields isValid=false with an INVALID_FIELD
error for subscribed_newsletter, not isValid=true with no errors: the
rules-lookup guard in validateField fires before its boolean-field branch and
VALIDATION_RULES has no subscribed_newsletter entry, contradicting the code's
own comment and the repository's documented example. -/
theorem C5_newsletter_validation_bug :
    (validateAndSanitizeFormData c5Input).sanitizedData =
      ⟨"John Doe".toList, "john@ex.com".toList, true, none, none, none⟩ ∧
    (validateAndSanitizeFormData c5Input).isValid = false ∧
    (validateAndSanitizeFormData c5Input).errors =
      [⟨.subscribed_newsletter, "Invalid subscribed_newsletter format", "INVALID_FIELD"⟩] := by
  decide

/-- C7, counterexample: the initial validation state of useFormValidation has
an empty error list together with isValid=false, so "isValid iff errors
empty" fails at the initial (and reset) controller state. -/
theorem C7_counterexample :
    initialValidationState.errors = [] ∧ initialValidationState.isValid = false := by
  decide

/-- C7, amended: isValid equals "errors is empty" for every result of
validateFormData and after every validation-updating or error-clearing
operation of the controller; but the initial state and the state installed by
resetForm have isValid=false with an empty error list, so there only the
forward direction (isValid implies no errors) holds. -/
theorem C7_isValid_iff_errors_empty :
    (∀ d : FormData, ((validateFormData d).isValid = true ↔ (validateFormData d).errors = [])) ∧
    (∀ (f : Field) (v : FieldValue) (st : FormValidationState),
      ((validateSingleFieldUpd f v st).isValid = true ↔
        (validateSingleFieldUpd f v st).errors = [])) ∧
    (∀ (d : FormData) (st : FormValidationState),
      ((validateFormUpd d st).isValid = true ↔ (validateFormUpd d st).errors = [])) ∧
    (∀ (f : Field) (st : FormValidationState),
      ((clearFieldErrorUpd f st).isValid = true ↔ (clearFieldErrorUpd f st).errors = [])) ∧
    (∀ st : FormValidationState,
      ((clearAllErrorsUpd st).isValid = true ↔ (clearAllErrorsUpd st).errors = [])) ∧
    (initialValidationState.isValid = false ∧ initialValidationState.errors = []) ∧
    (∀ (init : FormData) (c : ValidationController),
      (resetFormUpd init c).vstate.isValid = false ∧ (resetFormUpd init c).vstate.errors = []) := by
  refine ⟨?_, ?_, ?_, ?_, ?_, ⟨rfl, rfl⟩, fun _ _ => ⟨rfl, rfl⟩⟩
  · intro d
    simp [validateFormData, List.isEmpty_iff]
  · intro f v st
    simp [validateSingleFieldUpd, List.isEmpty_iff]
  · intro d st
    simp [validateFormUpd, validateAndSanitizeFormData, validateFormData, List.isEmpty_iff]
  · intro f st
    simp [clearFieldErrorUpd, List.isEmpty_iff]
  · intro st
    simp [clearAllErrorsUpd]

/-- C8, counterexample: after a successful submit armed the auto-reset
timeout, calling reset() leaves that timeout armed (some 5000, not none) —
useFormSubmission.reset only resets the state and never clears
resetTimeoutRef, so a timer armed before the reset can still fire. -/
theorem C8_counterexample :
    (submissionReset (submitResolveSuccess true none sampleRecord
        (submitInvoke initialSubmissionController))).autoResetTimer = some 5000 ∧
    (submissionReset (submitResolveSuccess true none sampleRecord
        (submitInvoke initialSubmissionController))).autoResetTimer ≠ none ∧
    (submissionReset (submitResolveSuccess true none sampleRecord
        (submitInvoke initialSubmissionController))).state = initialSubmissionState := by
  decide

/-- C8, amended: resetForm restores FormData to the initial data, resets the
validation state (errors/touched/dirty) and cancels the pending debounce
timer; the submission hook's reset() restores the initial submission state
but leaves an armed auto-reset timer untouched (it is cancelled only by the
unmount cleanup). The surviving timer firing after a reset only re-installs
the already-reset initial state. -/
theorem C8_reset_behavior :
    (∀ (init : FormData) (c : ValidationController),
      resetFormUpd init c = ⟨init, initialValidationState, none⟩) ∧
    (∀ c : SubmissionController, (submissionReset c).state = initialSubmissionState ∧
      (submissionReset c).autoResetTimer = c.autoResetTimer) ∧
    (∀ c : SubmissionController,
      (autoResetFire (submissionReset c)).state = initialSubmissionState) ∧
    (∀ c : SubmissionController, (submissionUnmountCleanup c).autoResetTimer = none) := by
  refine ⟨fun _ _ => rfl, fun c => ⟨rfl, rfl⟩, ?_, fun c => rfl⟩
  intro c
  cases h : c.autoResetTimer <;> simp [autoResetFire, submissionReset, h]

/-- C9: two checkEmail updates within one debounce window produce exactly one
email-existence network check, for the latest value (trimmed and lowercased),
fired one debounce delay after the second update — the second call's
clearTimeout cancels the first timer (last write wins). -/
theorem C9_debounce_last_write_wins (delay t0 t1 : Nat) (e0 e1 : List Char)
    (hwin : t1 < t0 + delay) (hne : jsTrim e1 ≠ []) :
    emailChecksOf delay [(t0, e0), (t1, e1)] = [(t1 + delay, emailCheckValue e1)] := by
  have hnotle : ¬ (t0 + delay ≤ t1) := by omega
  have he1 : e1 ≠ [] := by
    intro h
    apply hne
    rw [h]
    rfl
  simp [emailChecksOf, runEmailEvents, performCheckOf, hnotle, he1, hne]

/-- Witness for C9: the spec's scenario — updates at 0 ms and 100 ms with a
500 ms debounce give one check for the second email at 600 ms. -/
theorem C9_debounce_last_write_wins_witness :
    emailChecksOf 500 [(0, "a@x.com".toList), (100, "b@x.com".toList)] =
      [(600, emailCheckValue "b@x.com".toList)] :=
  C9_debounce_last_write_wins 500 0 100 ("a@x.com".toList) ("b@x.com".toList)
    (by decide) (by decide)

/-- C10: sanitizeFormData maps an optional field (message, company, phone) to
undefined exactly when the input value is absent/undefined or the empty
string; any other value is passed through sanitizeInput and kept as a string,
even when sanitization reduces it to the empty string. -/
theorem C10_optional_field_sanitization (x : FormData) :
    ((sanitizeFormData x).message = none ↔ (x.message = none ∨ x.message = some [])) ∧
    (∀ s, x.message = some s → s ≠ [] → (sanitizeFormData x).message = some (sanitizeInput s)) ∧
    ((sanitizeFormData x).company = none ↔ (x.company = none ∨ x.company = some [])) ∧
    (∀ s, x.company = some s → s ≠ [] → (sanitizeFormData x).company = some (sanitizeInput s)) ∧
    ((sanitizeFormData x).phone = none ↔ (x.phone = none ∨ x.phone = some [])) ∧
    (∀ s, x.phone = some s → s ≠ [] → (sanitizeFormData x).phone = some (sanitizeInput s)) := by
  refine ⟨?_, ?_, ?_, ?_, ?_, ?_⟩
  · cases hx : x.message with
    | none => simp [sanitizeFormData, sanitizeOptional, hx]
    | some s => by_cases hs : s = [] <;> simp [sanitizeFormData, sanitizeOptional, hx, hs]
  · intro s hx hs
    simp [sanitizeFormData, sanitizeOptional, hx, hs]
  · cases hx : x.company with
    | none => simp [sanitizeFormData, sanitizeOptional, hx]
    | some s => by_cases hs : s = [] <;> simp [sanitizeFormData, sanitizeOptional, hx, hs]
  · intro s hx hs
    simp [sanitizeFormData, sanitizeOptional, hx, hs]
  · cases hx : x.phone with
    | none => simp [sanitizeFormData, sanitizeOptional, hx]
    | some s => by_cases hs : s = [] <;> simp [sanitizeFormData, sanitizeOptional, hx, hs]
  · intro s hx hs
    simp [sanitizeFormData, sanitizeOptional, hx, hs]

/-- Witness for C10: a message consisting only of an HTML tag sanitizes to
the empty string and is kept as that string, not turned into undefined. -/
theorem C10_optional_field_sanitization_witness :
    (sanitizeFormData tagOnlyMessageForm).message = some [] := by
  have h := (C10_optional_field_sanitization tagOnlyMessageForm).2.1 ("<a>".toList) rfl (by decide)
  exact h.trans (by decide)

/-- C6: for the five rule fields, validateField returns a REQUIRED_FIELD
error when a required field (name, email) is undefined or trim-empty; returns
null for an undefined or trim-empty optional field (message, company, phone);
and otherwise reports the first violated rule in the order minimum length,
maximum length, pattern — so a length violation is reported even when the
pattern also fails — and null when no rule is violated. The rule tables here
(specRequired/specMinLength/specMaxLength/specPattern) are written from the
spec's table and compared against the code's validateField. -/
theorem C6_validateField_first_violation (s : List Char) :
    (∀ f : Field, (f = .name ∨ f = .email) →
      validateField f .undefined = some ⟨f, errRequired (fieldName f), "REQUIRED_FIELD"⟩ ∧
      (jsTrim s = [] →
        validateField f (.str s) = some ⟨f, errRequired (fieldName f), "REQUIRED_FIELD"⟩)) ∧
    (∀ f : Field, (f = .message ∨ f = .company ∨ f = .phone) →
      validateField f .undefined = none ∧
      (jsTrim s = [] → validateField f (.str s) = none)) ∧
    (∀ f : Field, isRuleField f = true → jsTrim s ≠ [] →
      ((minViol f s = true →
          (validateField f (.str s)).map (fun e => e.code) = some "MIN_LENGTH") ∧
       (minViol f s = false → maxViol f s = true →
          (validateField f (.str s)).map (fun e => e.code) = some "MAX_LENGTH") ∧
       (minViol f s = false → maxViol f s = false → patViol f s = true →
          (validateField f (.str s)).map (fun e => e.code) = some "INVALID_PATTERN") ∧
       (minViol f s = false → maxViol f s = false → patViol f s = false →
          validateField f (.str s) = none))) := by
  refine ⟨?_, ?_, ?_⟩
  · rintro f (rfl | rfl) <;>
      refine ⟨rfl, fun ht => ?_⟩ <;>
      simp [validateField, VALIDATION_RULES, ht]
  · rintro f (rfl | rfl | rfl) <;>
      refine ⟨rfl, fun ht => ?_⟩ <;>
      simp [validateField, VALIDATION_RULES, ht]
  · intro f hf ht
    have hne : (jsTrim s).isEmpty = false := by
      cases h : jsTrim s with
      | nil => exact absurd h ht
      | cons a l => rfl
    cases f <;> simp [isRuleField] at hf <;>
    · refine ⟨?_, ?_, ?_, ?_⟩
      · intro hmin
        simp [minViol, specMinLength] at hmin
        try simp [validateField, VALIDATION_RULES, hne, hmin]
      · intro hmin hmax
        simp [minViol, specMinLength] at hmin
        try simp [maxViol, specMaxLength] at hmax
        try simp [validateField, VALIDATION_RULES, hne, hmin, hmax]
        try (split_ifs <;> simp_all <;> omega)
      · intro hmin hmax hpat
        simp [minViol, specMinLength] at hmin
        try simp [maxViol, specMaxLength] at hmax
        try simp [patViol, specPattern] at hpat
        try simp [validateField, VALIDATION_RULES, hne, hmin, hmax, hpat]
        try (split_ifs <;> simp_all <;> omega)
      · intro hmin hmax hpat
        simp [minViol, specMinLength] at hmin
        try simp [maxViol, specMaxLength] at hmax
        try simp [patViol, specPattern] at hpat
        try simp [validateField, VALIDATION_RULES, hne, hmin, hmax, hpat]
        try (split_ifs <;> simp_all <;> omega)

/-- Witness for C6: the name "J" is too short, and the MIN_LENGTH error is
the one reported. -/
theorem C6_validateField_first_violation_witness :
    minViol .name ("J".toList) = true ∧
    (validateField .name (.str "J".toList)).map (fun e => e.code) = some "MIN_LENGTH" :=
  ⟨by decide,
    ((C6_validateField_first_violation ("J".toList)).2.2 .name (by decide) (by decide)).1
      (by decide)⟩

lemma collapseWsFuel_congr :
    ∀ {fuel fuel' : Nat} {l : List Char}, l.length ≤ fuel → l.length ≤ fuel' →
      collapseWsFuel fuel l = collapseWsFuel fuel' l := by
  intro fuel
  induction fuel with
  | zero =>
    intro fuel' l h1 h2
    have : l = [] := List.length_eq_zero.mp (Nat.le_zero.mp h1)
    subst this
    cases fuel' <;> rfl
  | succ f ih =>
    intro fuel' l h1 h2
    cases l with
    | nil => cases fuel' <;> rfl
    | cons c rest =>
      cases fuel' with
      | zero => simp at h2
      | succ f' =>
        have hlen := (List.dropWhile_sublist (l := rest) jsWs).length_le
        have h1' : rest.length ≤ f := by simp at h1; omega
        have h2' : rest.length ≤ f' := by simp at h2; omega
        simp only [collapseWsFuel]
        by_cases hc : jsWs c
        · rw [if_pos hc, if_pos hc]
          congr 1
          exact ih (le_trans hlen h1') (le_trans hlen h2')
        · rw [if_neg hc, if_neg hc]
          congr 1
          exact ih h1' h2'

lemma collapseWs_cons (c : Char) (rest : List Char) :
    collapseWs (c :: rest) =
      if jsWs c then ' ' :: collapseWs (rest.dropWhile jsWs) else c :: collapseWs rest := by
  have hlen := (List.dropWhile_sublist (l := rest) jsWs).length_le
  by_cases hc : jsWs c
  · rw [if_pos hc]
    show collapseWsFuel (rest.length + 1) (c :: rest) = _
    simp only [collapseWsFuel]
    rw [if_pos hc]
    congr 1
    exact collapseWsFuel_congr (le_trans hlen (by omega)) (le_refl _)
  · rw [if_neg hc]
    show collapseWsFuel (rest.length + 1) (c :: rest) = _
    simp only [collapseWsFuel]
    rw [if_neg hc]
    rfl

lemma stripTagsFuel_congr :
    ∀ {fuel fuel' : Nat} {l : List Char}, l.length ≤ fuel → l.length ≤ fuel' →
      stripTagsFuel fuel l = stripTagsFuel fuel' l := by
  intro fuel
  induction fuel with
  | zero =>
    intro fuel' l h1 h2
    have : l = [] := List.length_eq_zero.mp (Nat.le_zero.mp h1)
    subst this
    cases fuel' <;> rfl
  | succ f ih =>
    intro fuel' l h1 h2
    cases l with
    | nil => cases fuel' <;> rfl
    | cons c rest =>
      cases fuel' with
      | zero => simp at h2
      | succ f' =>
        have h3 := (List.dropWhile_sublist (l := rest) (fun x => x ≠ '>')).length_le
        have h4 := List.length_tail (rest.dropWhile (fun x => x ≠ '>'))
        have h1' : rest.length ≤ f := by simp at h1; omega
        have h2' : rest.length ≤ f' := by simp at h2; omega
        simp only [stripTagsFuel]
        by_cases hc : (c = '<' && rest.contains '>') = true
        · rw [if_pos hc, if_pos hc]
          exact ih (by omega) (by omega)
        · rw [if_neg hc, if_neg hc]
          congr 1
          exact ih h1' h2'

lemma stripTags_cons (c : Char) (rest : List Char) :
    stripTags (c :: rest) =
      if c = '<' && rest.contains '>' then
        stripTags ((rest.dropWhile (fun x => x ≠ '>')).tail)
      else c :: stripTags rest := by
  have h3 := (List.dropWhile_sublist (l := rest) (fun x => x ≠ '>')).length_le
  have h4 := List.length_tail (rest.dropWhile (fun x => x ≠ '>'))
  by_cases hc : (c = '<' && rest.contains '>') = true
  · rw [if_pos hc]
    show stripTagsFuel (rest.length + 1) (c :: rest) = _
    simp only [stripTagsFuel]
    rw [if_pos hc]
    exact stripTagsFuel_congr (by omega) (le_refl _)
  · rw [if_neg hc]
    show stripTagsFuel (rest.length + 1) (c :: rest) = _
    simp only [stripTagsFuel]
    rw [if_neg hc]
    rfl


lemma collapseWs_eq_nil_iff : ∀ {l : List Char}, collapseWs l = [] ↔ l = [] := by
  intro l
  cases l with
  | nil => simp [collapseWs, collapseWsFuel]
  | cons c rest =>
    rw [collapseWs_cons]
    by_cases hc : jsWs c <;> simp [hc]

lemma mem_collapseWs :
    ∀ (n : Nat) (l : List Char), l.length ≤ n → ∀ a ∈ collapseWs l, a = ' ' ∨ a ∈ l := by
  intro n
  induction n with
  | zero =>
    intro l h
    have : l = [] := List.length_eq_zero.mp (Nat.le_zero.mp h)
    subst this
    intro a ha
    simp [collapseWs, collapseWsFuel] at ha
  | succ k ih =>
    intro l h a ha
    cases l with
    | nil => simp [collapseWs, collapseWsFuel] at ha
    | cons c rest =>
      rw [collapseWs_cons] at ha
      have hrl : rest.length ≤ k := by simp at h; omega
      by_cases hc : jsWs c
      · rw [if_pos hc] at ha
        rcases List.mem_cons.mp ha with h1 | h1
        · exact Or.inl h1
        · have hdl := (List.dropWhile_sublist (l := rest) jsWs).length_le
          rcases ih (rest.dropWhile jsWs) (by omega) a h1 with h2 | h2
          · exact Or.inl h2
          · exact Or.inr (List.mem_cons_of_mem _ ((List.dropWhile_sublist jsWs).subset h2))
      · rw [if_neg hc] at ha
        rcases List.mem_cons.mp ha with h1 | h1
        · exact Or.inr (h1 ▸ List.mem_cons_self c rest)
        · rcases ih rest hrl a h1 with h2 | h2
          · exact Or.inl h2
          · exact Or.inr (List.mem_cons_of_mem _ h2)

lemma stripTags_of_tagFree :
    ∀ (n : Nat) (l : List Char), l.length ≤ n → '<' ∉ l → stripTags l = l := by
  intro n
  induction n with
  | zero =>
    intro l h _
    have : l = [] := List.length_eq_zero.mp (Nat.le_zero.mp h)
    subst this
    rfl
  | succ k ih =>
    intro l h hfree
    cases l with
    | nil => rfl
    | cons c rest =>
      have hcne : c ≠ '<' := fun hcc => hfree (hcc ▸ List.mem_cons_self c rest)
      rw [stripTags_cons, if_neg (by simp [hcne])]
      have : rest.length ≤ k := by simp at h; omega
      rw [ih rest this (fun hm => hfree (List.mem_cons_of_mem _ hm))]

lemma mem_jsTrim {a : Char} {l : List Char} (h : a ∈ jsTrim l) : a ∈ l := by
  unfold jsTrim at h
  rw [List.mem_reverse] at h
  have h1 := (List.dropWhile_sublist (l := (l.dropWhile jsWs).reverse) jsWs).subset h
  rw [List.mem_reverse] at h1
  exact (List.dropWhile_sublist jsWs).subset h1

lemma dropWhile_head_not (p : Char → Bool) :
    ∀ (l : List Char) (c : Char), (l.dropWhile p).head? = some c → p c = false := by
  intro l
  induction l with
  | nil => intro c h; simp at h
  | cons d rest ih =>
    intro c h
    rw [List.dropWhile_cons] at h
    by_cases hd : p d
    · rw [if_pos hd] at h
      exact ih c h
    · rw [if_neg hd] at h
      simp at h
      subst h
      simpa using hd

lemma trim_head {l : List Char} {c : Char} (h : (jsTrim l).head? = some c) : jsWs c = false := by
  unfold jsTrim at h
  rw [List.head?_reverse] at h
  have hne : ((l.dropWhile jsWs).reverse.dropWhile jsWs) ≠ [] := by
    intro hn
    rw [hn] at h
    simp at h
  obtain ⟨pre, hpre⟩ := List.dropWhile_suffix (l := (l.dropWhile jsWs).reverse) jsWs
  have hlast : ((l.dropWhile jsWs).reverse.dropWhile jsWs).getLast? =
      ((l.dropWhile jsWs).reverse).getLast? := by
    conv_rhs => rw [← hpre]
    rw [List.getLast?_append]
    cases hgl : ((l.dropWhile jsWs).reverse.dropWhile jsWs).getLast? with
    | none => exact absurd (List.getLast?_isSome.mpr hne) (by simp [hgl])
    | some b => rfl
  rw [hlast, List.getLast?_reverse] at h
  exact dropWhile_head_not jsWs l c h

lemma trim_last {l : List Char} {c : Char} (h : (jsTrim l).getLast? = some c) :
    jsWs c = false := by
  unfold jsTrim at h
  rw [List.getLast?_reverse] at h
  exact dropWhile_head_not jsWs _ c h

lemma trim_eq_self {m : List Char}
    (h1 : ∀ c, m.head? = some c → jsWs c = false)
    (h2 : ∀ c, m.getLast? = some c → jsWs c = false) : jsTrim m = m := by
  have hl : m.dropWhile jsWs = m := by
    cases m with
    | nil => rfl
    | cons c rest =>
      rw [List.dropWhile_cons, if_neg (by simp [h1 c rfl])]
  unfold jsTrim
  rw [hl]
  have hr : m.reverse.dropWhile jsWs = m.reverse := by
    cases hm : m.reverse with
    | nil => rfl
    | cons c rest =>
      rw [List.dropWhile_cons, if_neg ?_]
      have : m.getLast? = some c := by
        rw [← List.head?_reverse, hm]
        rfl
      simp [h2 c this]
  rw [hr, List.reverse_reverse]


lemma collapse_head_eq {l : List Char} {c : Char}
    (h : l.head? = some c) (hc : jsWs c = false) : (collapseWs l).head? = some c := by
  cases l with
  | nil => simp at h
  | cons d rest =>
    simp at h
    subst h
    rw [collapseWs_cons, if_neg (by simp [hc])]
    rfl

lemma collapse_last_eq :
    ∀ (n : Nat) (l : List Char), l.length ≤ n → ∀ c, l.getLast? = some c → jsWs c = false →
      (collapseWs l).getLast? = some c := by
  intro n
  induction n with
  | zero =>
    intro l h c hg _
    have : l = [] := List.length_eq_zero.mp (Nat.le_zero.mp h)
    subst this
    simp at hg
  | succ k ih =>
    intro l h c hg hc
    cases l with
    | nil => simp at hg
    | cons d rest =>
      by_cases hrne : rest = []
      · subst hrne
        simp at hg
        subst hg
        rw [collapseWs_cons, if_neg (by simp [hc])]
        rfl
      · have hgl : rest.getLast? = some c := by
          rw [← hg]
          cases rest with
          | nil => exact absurd rfl hrne
          | cons e rest' => simp [List.getLast?_cons_cons]
        rw [collapseWs_cons]
        have hrl : rest.length ≤ k := by simp at h; omega
        by_cases hd : jsWs d
        · rw [if_pos hd]
          set m := rest.dropWhile jsWs with hm
          have hmne : m ≠ [] := by
            intro hmn
            have hall := List.dropWhile_eq_nil_iff.mp hmn
            have hcin : c ∈ rest := by
              obtain ⟨ys, hys⟩ := List.getLast?_eq_some_iff.mp hgl
              rw [hys]
              simp
            have := hall c hcin
            rw [hc] at this
            exact Bool.false_ne_true this
          have hmg : m.getLast? = rest.getLast? := by
            obtain ⟨pre, hpre⟩ := List.dropWhile_suffix (l := rest) jsWs
            conv_rhs => rw [← hpre]
            rw [List.getLast?_append]
            cases hx : m.getLast? with
            | none => exact absurd (List.getLast?_isSome.mpr hmne) (by simp [hx])
            | some b => rfl
          have hmlen : m.length ≤ k := le_trans (List.dropWhile_sublist jsWs).length_le hrl
          have hcw := ih m hmlen c (hmg.trans hgl) hc
          have hcwne : collapseWs m ≠ [] := by
            intro hn
            exact hmne (collapseWs_eq_nil_iff.mp hn)
          cases hy : collapseWs m with
          | nil => exact absurd hy hcwne
          | cons z zs =>
            rw [hy] at hcw
            simp [List.getLast?_cons_cons, ← hcw]
        · rw [if_neg hd]
          have hcw := ih rest hrl c hgl hc
          have hcwne : collapseWs rest ≠ [] := by
            intro hn
            exact hrne (collapseWs_eq_nil_iff.mp hn)
          cases hy : collapseWs rest with
          | nil => exact absurd hy hcwne
          | cons z zs =>
            rw [hy] at hcw
            simp [List.getLast?_cons_cons, ← hcw]

lemma collapse_normal :
    ∀ (n : Nat) (l : List Char), l.length ≤ n →
      wsIsSpace (collapseWs l) ∧ noWsRun (collapseWs l) := by
  intro n
  induction n with
  | zero =>
    intro l h
    have : l = [] := List.length_eq_zero.mp (Nat.le_zero.mp h)
    subst this
    constructor
    · intro c hc
      simp [collapseWs, collapseWsFuel] at hc
    · simp [noWsRun, collapseWs, collapseWsFuel]
  | succ k ih =>
    intro l h
    cases l with
    | nil =>
      constructor
      · intro c hc
        simp [collapseWs, collapseWsFuel] at hc
      · simp [noWsRun, collapseWs, collapseWsFuel]
    | cons c rest =>
      have hrl : rest.length ≤ k := by simp at h; omega
      rw [collapseWs_cons]
      by_cases hc : jsWs c
      · rw [if_pos hc]
        set m := rest.dropWhile jsWs with hm
        have hmlen : m.length ≤ k := le_trans (List.dropWhile_sublist jsWs).length_le hrl
        obtain ⟨ihw, ihr⟩ := ih m hmlen
        constructor
        · intro d hd _
          rcases List.mem_cons.mp hd with h1 | h1
          · exact h1
          · exact ihw d h1 (by assumption)
        · rw [noWsRun, List.chain'_cons']
          refine ⟨?_, ihr⟩
          intro b hb
          cases hy : m with
          | nil =>
            rw [hy] at hb
            simp [collapseWs, collapseWsFuel] at hb
          | cons z zs =>
            have hz : jsWs z = false := by
              have := dropWhile_head_not jsWs rest z (by rw [← hm, hy]; rfl)
              exact this
            have : (collapseWs m).head? = some z := collapse_head_eq (by rw [hy]; rfl) hz
            rw [this] at hb
            simp at hb
            subst hb
            intro hcontra
            rw [hz] at hcontra
            exact Bool.false_ne_true hcontra.2
      · rw [if_neg hc]
        obtain ⟨ihw, ihr⟩ := ih rest hrl
        constructor
        · intro d hd hws
          rcases List.mem_cons.mp hd with h1 | h1
          · subst h1
            rw [hws] at hc
            exact absurd rfl hc
          · exact ihw d h1 hws
        · rw [noWsRun, List.chain'_cons']
          refine ⟨?_, ihr⟩
          intro b _
          intro hcontra
          rw [hcontra.1] at hc
          exact hc rfl

lemma collapse_id_of_normal :
    ∀ (l : List Char), wsIsSpace l → noWsRun l → collapseWs l = l := by
  intro l
  induction l with
  | nil => intro _ _; rfl
  | cons c rest ih =>
    intro hw hr
    have hwrest : wsIsSpace rest := fun d hd => hw d (List.mem_cons_of_mem _ hd)
    have hrrest : noWsRun rest := hr.tail
    rw [collapseWs_cons]
    by_cases hc : jsWs c
    · rw [if_pos hc]
      have hcsp : c = ' ' := hw c (List.mem_cons_self c rest) hc
      have hdrop : rest.dropWhile jsWs = rest := by
        cases rest with
        | nil => rfl
        | cons d rest' =>
          rw [List.dropWhile_cons, if_neg ?_]
          have hpair := (List.chain'_cons'.mp hr).1 d rfl
          simp only [not_and] at hpair
          have := hpair hc
          simp [this]
      rw [hdrop, ih hwrest hrrest, hcsp]
    · rw [if_neg hc]
      rw [ih hwrest hrrest]


lemma char_ofNat_toNat {n : Nat} (h : n < 55296) : (Char.ofNat n).toNat = n := by
  unfold Char.ofNat
  rw [dif_pos (Or.inl h)]
  rfl

lemma ws_toNat {c : Char} (h : jsWs c = true) :
    c.toNat = 32 ∨ c.toNat = 9 ∨ c.toNat = 10 ∨ c.toNat = 11 ∨ c.toNat = 12 ∨ c.toNat = 13 := by
  simp [jsWs] at h
  rcases h with ((((h | h) | h) | h) | h) | h <;> subst h <;> decide

lemma jsWs_eq_false_of_big {c : Char} (h : 33 ≤ c.toNat) : jsWs c = false := by
  by_cases hws : jsWs c
  · have := ws_toNat hws
    omega
  · simpa using hws

lemma toUpper_cases (c : Char) :
    Char.toUpper c = c ∨
      (97 ≤ c.toNat ∧ c.toNat ≤ 122 ∧ (Char.toUpper c).toNat = c.toNat - 32) := by
  unfold Char.toUpper
  by_cases h : c.toNat ≥ 97 ∧ c.toNat ≤ 122
  · right
    rw [if_pos h]
    exact ⟨h.1, h.2, char_ofNat_toNat (by omega)⟩
  · left
    rw [if_neg h]

lemma toLower_cases (c : Char) :
    Char.toLower c = c ∨
      (65 ≤ c.toNat ∧ c.toNat ≤ 90 ∧ (Char.toLower c).toNat = c.toNat + 32) := by
  unfold Char.toLower
  by_cases h : c.toNat ≥ 65 ∧ c.toNat ≤ 90
  · right
    rw [if_pos h]
    exact ⟨h.1, h.2, char_ofNat_toNat (by omega)⟩
  · left
    rw [if_neg h]

lemma jsWs_toUpper (c : Char) : jsWs (Char.toUpper c) = jsWs c := by
  rcases toUpper_cases c with h | ⟨h1, h2, h3⟩
  · rw [h]
  · rw [jsWs_eq_false_of_big (by omega), jsWs_eq_false_of_big (by omega)]

lemma jsWs_toLower (c : Char) : jsWs (Char.toLower c) = jsWs c := by
  rcases toLower_cases c with h | ⟨h1, h2, h3⟩
  · rw [h]
  · rw [jsWs_eq_false_of_big (by omega), jsWs_eq_false_of_big (by omega)]

lemma toUpper_eq_lt_iff (c : Char) : Char.toUpper c = '<' ↔ c = '<' := by
  constructor
  · intro h
    rcases toUpper_cases c with h0 | ⟨h1, h2, h3⟩
    · rw [← h0, h]
    · rw [h] at h3
      have : ('<' : Char).toNat = 60 := by decide
      omega
  · intro h
    subst h
    decide

lemma toLower_eq_lt_iff (c : Char) : Char.toLower c = '<' ↔ c = '<' := by
  constructor
  · intro h
    rcases toLower_cases c with h0 | ⟨h1, h2, h3⟩
    · rw [← h0, h]
    · rw [h] at h3
      have : ('<' : Char).toNat = 60 := by decide
      omega
  · intro h
    subst h
    decide

lemma toUpper_id_of {c : Char} (h : ¬(97 ≤ c.toNat ∧ c.toNat ≤ 122)) :
    Char.toUpper c = c := by
  unfold Char.toUpper
  rw [if_neg (by omega)]

lemma toLower_id_of {c : Char} (h : ¬(65 ≤ c.toNat ∧ c.toNat ≤ 90)) :
    Char.toLower c = c := by
  unfold Char.toLower
  rw [if_neg (by omega)]

lemma toUpper_toUpper (c : Char) : Char.toUpper (Char.toUpper c) = Char.toUpper c := by
  rcases toUpper_cases c with h | ⟨h1, h2, h3⟩
  · rw [h, h]
  · exact toUpper_id_of (by omega)

lemma toLower_toLower (c : Char) : Char.toLower (Char.toLower c) = Char.toLower c := by
  rcases toLower_cases c with h | ⟨h1, h2, h3⟩
  · rw [h, h]
  · exact toLower_id_of (by omega)


lemma sanitizeInput_eq_of_tagFree {l : List Char} (h : '<' ∉ l) :
    sanitizeInput l = collapseWs (jsTrim l) := by
  by_cases hl : l = []
  · subst hl
    rfl
  · unfold sanitizeInput
    rw [if_neg hl]
    have htf : '<' ∉ jsTrim l := fun hm => h (mem_jsTrim hm)
    rw [stripTags_of_tagFree (jsTrim l).length (jsTrim l) (le_refl _) htf]

lemma trimmed_collapsed_head {x : List Char} {c : Char}
    (h : (collapseWs (jsTrim x)).head? = some c) : jsWs c = false := by
  cases hh : (jsTrim x).head? with
  | none =>
    have : jsTrim x = [] := by
      cases hy : jsTrim x
      · rfl
      · rw [hy] at hh; simp at hh
    rw [this] at h
    simp [collapseWs, collapseWsFuel] at h
  | some c0 =>
    have hws0 := trim_head hh
    have := collapse_head_eq hh hws0
    rw [this] at h
    simp at h
    subst h
    exact hws0

lemma trimmed_collapsed_last {x : List Char} {c : Char}
    (h : (collapseWs (jsTrim x)).getLast? = some c) : jsWs c = false := by
  cases hh : (jsTrim x).getLast? with
  | none =>
    have : jsTrim x = [] := by
      cases hy : jsTrim x with
      | nil => rfl
      | cons a t =>
        rw [hy] at hh
        have h2 : (a :: t) ≠ [] := by simp
        have h3 := List.getLast?_isSome.mpr h2
        rw [hh] at h3
        simp at h3
    rw [this] at h
    simp [collapseWs, collapseWsFuel] at h
  | some c0 =>
    have hws0 := trim_last hh
    have := collapse_last_eq (jsTrim x).length (jsTrim x) (le_refl _) c0 hh hws0
    rw [this] at h
    simp at h
    subst h
    exact hws0

lemma normalized_fix {y : List Char}
    (hh : ∀ c, y.head? = some c → jsWs c = false)
    (hl : ∀ c, y.getLast? = some c → jsWs c = false)
    (hw : wsIsSpace y) (hr : noWsRun y) (htf : '<' ∉ y) :
    sanitizeInput y = y := by
  by_cases hy : y = []
  · subst hy; rfl
  · rw [sanitizeInput_eq_of_tagFree htf, trim_eq_self hh hl,
      collapse_id_of_normal y hw hr]

lemma sanitizeInput_idem_of_tagFree {l : List Char} (h : '<' ∉ l) :
    sanitizeInput (sanitizeInput l) = sanitizeInput l := by
  rw [sanitizeInput_eq_of_tagFree h]
  have hnorm := collapse_normal (jsTrim l).length (jsTrim l) (le_refl _)
  have htf : '<' ∉ collapseWs (jsTrim l) := by
    intro hm
    rcases mem_collapseWs (jsTrim l).length (jsTrim l) (le_refl _) '<' hm with h1 | h1
    · exact absurd h1 (by decide)
    · exact h (mem_jsTrim h1)
  exact normalized_fix (fun c hc => trimmed_collapsed_head hc)
    (fun c hc => trimmed_collapsed_last hc) hnorm.1 hnorm.2 htf

lemma sanitizeInput_ne_nil_of {l : List Char} (ht : jsTrim l ≠ []) (htf : '<' ∉ l) :
    sanitizeInput l ≠ [] := by
  rw [sanitizeInput_eq_of_tagFree htf]
  intro hn
  exact ht (collapseWs_eq_nil_iff.mp hn)

lemma trim_map_toLower (l : List Char) :
    jsTrim ((jsTrim l).map Char.toLower) = (jsTrim l).map Char.toLower := by
  apply trim_eq_self
  · intro c hc
    rw [List.head?_map] at hc
    cases hh : (jsTrim l).head? with
    | none => rw [hh] at hc; simp at hc
    | some c0 =>
      rw [hh] at hc
      simp at hc
      subst hc
      rw [jsWs_toLower]
      exact trim_head hh
  · intro c hc
    rw [List.getLast?_map] at hc
    cases hh : (jsTrim l).getLast? with
    | none => rw [hh] at hc; simp at hc
    | some c0 =>
      rw [hh] at hc
      simp at hc
      subst hc
      rw [jsWs_toLower]
      exact trim_last hh

lemma sanitizeEmail_eq {l : List Char} (hl : l ≠ []) :
    sanitizeEmail l = (jsTrim l).map Char.toLower := by
  unfold sanitizeEmail
  rw [if_neg hl]

lemma sanitizeEmail_idem (l : List Char) :
    sanitizeEmail (sanitizeEmail l) = sanitizeEmail l := by
  by_cases hl : l = []
  · subst hl; rfl
  · rw [sanitizeEmail_eq hl]
    by_cases hy : (jsTrim l).map Char.toLower = []
    · rw [hy]; rfl
    · rw [sanitizeEmail_eq hy, trim_map_toLower, List.map_map]
      congr 1
      funext c
      exact toLower_toLower c


lemma splitSpace_ne_nil : ∀ l : List Char, splitSpace l ≠ [] := by
  intro l
  induction l with
  | nil => simp [splitSpace]
  | cons c rest ih =>
    simp only [splitSpace]
    by_cases hc : c = ' '
    · rw [if_pos hc]; simp
    · rw [if_neg hc]
      cases hs : splitSpace rest with
      | nil => simp
      | cons w ws => simp

lemma splitSpace_no_space {w : List Char} (h : ' ' ∉ w) : splitSpace w = [w] := by
  induction w with
  | nil => rfl
  | cons c rest ih =>
    have hc : c ≠ ' ' := fun hcc => h (hcc ▸ List.mem_cons_self c rest)
    simp only [splitSpace]
    rw [if_neg hc, ih (fun hm => h (List.mem_cons_of_mem _ hm))]

lemma splitSpace_word_append {w t : List Char} (h : ' ' ∉ w) :
    splitSpace (w ++ ' ' :: t) = w :: splitSpace t := by
  induction w with
  | nil => simp [splitSpace]
  | cons c rest ih =>
    have hc : c ≠ ' ' := fun hcc => h (hcc ▸ List.mem_cons_self c rest)
    have ih2 := ih (fun hm => h (List.mem_cons_of_mem _ hm))
    simp [splitSpace, hc, ih2]

lemma splitSpace_joinSpace :
    ∀ (ws : List (List Char)), ws ≠ [] → (∀ w ∈ ws, ' ' ∉ w) →
      splitSpace (joinSpace ws) = ws := by
  intro ws
  induction ws with
  | nil => intro h _; exact absurd rfl h
  | cons w rest ih =>
    intro _ hsp
    cases rest with
    | nil =>
      show splitSpace w = [w]
      exact splitSpace_no_space (hsp w (List.mem_cons_self _ _))
    | cons w2 rest2 =>
      show splitSpace (w ++ ' ' :: joinSpace (w2 :: rest2)) = _
      rw [splitSpace_word_append (hsp w (List.mem_cons_self _ _))]
      rw [ih (by simp) (fun v hv => hsp v (List.mem_cons_of_mem _ hv))]

lemma mem_of_mem_splitSpace :
    ∀ (l : List Char) (w : List Char), w ∈ splitSpace l → ∀ c ∈ w, c ∈ l := by
  intro l
  induction l with
  | nil =>
    intro w hw c hc
    simp [splitSpace] at hw
    subst hw
    simp at hc
  | cons d rest ih =>
    intro w hw c hc
    simp only [splitSpace] at hw
    by_cases hd : d = ' '
    · rw [if_pos hd] at hw
      rcases List.mem_cons.mp hw with h1 | h1
      · subst h1; simp at hc
      · exact List.mem_cons_of_mem _ (ih w h1 c hc)
    · rw [if_neg hd] at hw
      cases hs : splitSpace rest with
      | nil => exact absurd hs (splitSpace_ne_nil rest)
      | cons w0 ws0 =>
        rw [hs] at hw
        rcases List.mem_cons.mp hw with h1 | h1
        · subst h1
          rcases List.mem_cons.mp hc with h2 | h2
          · exact h2 ▸ List.mem_cons_self d rest
          · exact List.mem_cons_of_mem _
              (ih w0 (hs ▸ List.mem_cons_self w0 ws0) c h2)
        · exact List.mem_cons_of_mem _ (ih w (hs ▸ List.mem_cons_of_mem _ h1) c hc)


lemma splitSpace_cons (c : Char) (rest : List Char) :
    splitSpace (c :: rest) =
      if c = ' ' then [] :: splitSpace rest
      else
        match splitSpace rest with
        | [] => [[c]]
        | w :: ws => (c :: w) :: ws := rfl

lemma splitSpace_words :
    ∀ (n : Nat) (y : List Char), y.length ≤ n → y ≠ [] →
      (∀ c, y.head? = some c → jsWs c = false) →
      (∀ c, y.getLast? = some c → jsWs c = false) →
      wsIsSpace y → noWsRun y →
      ∀ w ∈ splitSpace y, w ≠ [] ∧ ∀ c ∈ w, jsWs c = false := by
  intro n
  induction n with
  | zero =>
    intro y hlen hne
    have : y = [] := List.length_eq_zero.mp (Nat.le_zero.mp hlen)
    exact absurd this hne
  | succ k ih =>
    intro y hlen hne hhead hlast hw hr
    cases y with
    | nil => exact absurd rfl hne
    | cons c rest =>
      have hcws : jsWs c = false := hhead c rfl
      have hc : c ≠ ' ' := by
        intro hcc
        subst hcc
        simp [jsWs] at hcws
      cases rest with
      | nil =>
        intro w hw2
        simp [splitSpace, hc] at hw2
        subst hw2
        refine ⟨by simp, ?_⟩
        intro d hd
        simp at hd
        subst hd
        exact hcws
      | cons d rest' =>
        by_cases hd : d = ' '
        · subst hd
          have hrne : rest' ≠ [] := by
            intro hr0
            subst hr0
            have := hlast ' ' (by rfl)
            simp [jsWs] at this
          have hsplit : splitSpace (c :: ' ' :: rest') = [c] :: splitSpace rest' := by
            simp [splitSpace, hc]
          have hh' : ∀ e, rest'.head? = some e → jsWs e = false := by
            intro e he
            have hchain := (List.chain'_cons'.mp (List.Chain'.tail hr)).1 e he
            simp only [not_and] at hchain
            by_cases hws : jsWs e
            · exact absurd hws (hchain (by decide))
            · simpa using hws
          have hl' : ∀ e, rest'.getLast? = some e → jsWs e = false := by
            intro e he
            apply hlast
            cases rest' with
            | nil => exact absurd rfl hrne
            | cons f t => simp [List.getLast?_cons_cons] at he ⊢; exact he
          have hw' : wsIsSpace rest' := by
            intro e he hwe
            exact hw e (List.mem_cons_of_mem _ (List.mem_cons_of_mem _ he)) hwe
          have hr' : noWsRun rest' := (hr.tail).tail
          have hlen' : rest'.length ≤ k := by simp at hlen; omega
          intro w hw2
          rw [hsplit] at hw2
          rcases List.mem_cons.mp hw2 with h1 | h1
          · subst h1
            refine ⟨by simp, ?_⟩
            intro e he
            simp at he
            subst he
            exact hcws
          · exact ih rest' hlen' hrne hh' hl' hw' hr' w h1
        · have hdws : jsWs d = false := by
            by_cases hws : jsWs d
            · exact absurd (hw d (List.mem_cons_of_mem _ (List.mem_cons_self _ _)) hws) hd
            · simpa using hws
          have hrne : (d :: rest') ≠ [] := by simp
          have hh' : ∀ e, (d :: rest').head? = some e → jsWs e = false := by
            intro e he
            simp at he
            subst he
            exact hdws
          have hl' : ∀ e, (d :: rest').getLast? = some e → jsWs e = false := by
            intro e he
            apply hlast
            simpa [List.getLast?_cons_cons] using he
          have hw' : wsIsSpace (d :: rest') := by
            intro e he hwe
            exact hw e (List.mem_cons_of_mem _ he) hwe
          have hr' : noWsRun (d :: rest') := hr.tail
          have hlen' : (d :: rest').length ≤ k := by simp at hlen ⊢; omega
          have hrec := ih (d :: rest') hlen' hrne hh' hl' hw' hr'
          intro w hw2
          rw [splitSpace_cons, if_neg hc] at hw2
          cases hs : splitSpace (d :: rest') with
          | nil => exact absurd hs (splitSpace_ne_nil _)
          | cons w0 ws0 =>
            rw [hs] at hw2
            simp only [] at hw2
            rcases List.mem_cons.mp hw2 with h1 | h1
            · subst h1
              obtain ⟨hw0ne, hw0ch⟩ := hrec w0 (hs ▸ List.mem_cons_self _ _)
              refine ⟨by simp, ?_⟩
              intro e he
              rcases List.mem_cons.mp he with h2 | h2
              · subst h2; exact hcws
              · exact hw0ch e h2
            · exact hrec w (hs ▸ List.mem_cons_of_mem _ h1)


lemma joinSpace_ne_nil {ws : List (List Char)}
    (hne : ws ≠ []) (hwords : ∀ w ∈ ws, w ≠ []) : joinSpace ws ≠ [] := by
  cases ws with
  | nil => exact absurd rfl hne
  | cons w rest =>
    cases rest with
    | nil => exact hwords w (List.mem_cons_self _ _)
    | cons w2 rest2 =>
      show w ++ ' ' :: joinSpace (w2 :: rest2) ≠ []
      simp

lemma mem_joinSpace :
    ∀ (ws : List (List Char)) (c : Char), c ∈ joinSpace ws → c = ' ' ∨ ∃ w ∈ ws, c ∈ w := by
  intro ws
  induction ws with
  | nil => intro c hc; simp [joinSpace] at hc
  | cons w rest ih =>
    intro c hc
    cases rest with
    | nil =>
      right
      exact ⟨w, List.mem_cons_self _ _, hc⟩
    | cons w2 rest2 =>
      have : c ∈ w ++ ' ' :: joinSpace (w2 :: rest2) := hc
      rcases List.mem_append.mp this with h1 | h1
      · exact Or.inr ⟨w, List.mem_cons_self _ _, h1⟩
      · rcases List.mem_cons.mp h1 with h2 | h2
        · exact Or.inl h2
        · rcases ih c h2 with h3 | ⟨v, hv, hcv⟩
          · exact Or.inl h3
          · exact Or.inr ⟨v, List.mem_cons_of_mem _ hv, hcv⟩

lemma joinSpace_head? {w : List Char} {rest : List (List Char)} (hw : w ≠ []) :
    (joinSpace (w :: rest)).head? = w.head? := by
  cases rest with
  | nil => rfl
  | cons w2 rest2 =>
    show (w ++ ' ' :: joinSpace (w2 :: rest2)).head? = w.head?
    cases w with
    | nil => exact absurd rfl hw
    | cons c t => rfl

lemma joinSpace_getLast? :
    ∀ (ws : List (List Char)), ws ≠ [] → (∀ w ∈ ws, w ≠ []) →
      ∃ w ∈ ws, (joinSpace ws).getLast? = w.getLast? := by
  intro ws
  induction ws with
  | nil => intro h _; exact absurd rfl h
  | cons w rest ih =>
    intro _ hwords
    cases rest with
    | nil => exact ⟨w, List.mem_cons_self _ _, rfl⟩
    | cons w2 rest2 =>
      obtain ⟨v, hv, hveq⟩ := ih (by simp) (fun u hu => hwords u (List.mem_cons_of_mem _ hu))
      refine ⟨v, List.mem_cons_of_mem _ hv, ?_⟩
      show (w ++ ' ' :: joinSpace (w2 :: rest2)).getLast? = _
      rw [List.getLast?_append]
      have hjne : joinSpace (w2 :: rest2) ≠ [] :=
        joinSpace_ne_nil (by simp)
          (fun u hu => hwords u (List.mem_cons_of_mem _ hu))
      cases hj : joinSpace (w2 :: rest2) with
      | nil => exact absurd hj hjne
      | cons z zs =>
        rw [← hj]
        have h1 : (' ' :: joinSpace (w2 :: rest2)).getLast? = (joinSpace (w2 :: rest2)).getLast? := by
          rw [hj]
          simp [List.getLast?_cons_cons]
        rw [h1, hveq]
        have h2 : v.getLast?.isSome := List.getLast?_isSome.mpr (hwords v (List.mem_cons_of_mem _ hv))
        cases hvl : v.getLast? with
        | none => rw [hvl] at h2; simp at h2
        | some b => rfl

lemma noWsRun_of_all_not_ws :
    ∀ (l : List Char), (∀ c ∈ l, jsWs c = false) → noWsRun l := by
  intro l
  induction l with
  | nil => simp [noWsRun]
  | cons c rest ih =>
    intro h
    rw [noWsRun, List.chain'_cons']
    refine ⟨?_, ih (fun d hd => h d (List.mem_cons_of_mem _ hd))⟩
    intro b _
    intro hcontra
    have := h c (List.mem_cons_self _ _)
    rw [this] at hcontra
    exact Bool.false_ne_true hcontra.1

lemma joinSpace_wsIsSpace {ws : List (List Char)}
    (h : ∀ w ∈ ws, ∀ c ∈ w, jsWs c = false) : wsIsSpace (joinSpace ws) := by
  intro c hc hws
  rcases mem_joinSpace ws c hc with h1 | ⟨w, hw, hcw⟩
  · exact h1
  · rw [h w hw c hcw] at hws
    exact absurd hws (by simp)

lemma joinSpace_noWsRun :
    ∀ (ws : List (List Char)), (∀ w ∈ ws, w ≠ []) →
      (∀ w ∈ ws, ∀ c ∈ w, jsWs c = false) → noWsRun (joinSpace ws) := by
  intro ws
  induction ws with
  | nil => intro _ _; simp [noWsRun, joinSpace]
  | cons w rest ih =>
    intro hne hch
    cases rest with
    | nil =>
      exact noWsRun_of_all_not_ws w (hch w (List.mem_cons_self _ _))
    | cons w2 rest2 =>
      show noWsRun (w ++ ' ' :: joinSpace (w2 :: rest2))
      rw [noWsRun, List.chain'_append]
      refine ⟨noWsRun_of_all_not_ws w (hch w (List.mem_cons_self _ _)), ?_, ?_⟩
      · rw [List.chain'_cons']
        refine ⟨?_, ih (fun u hu => hne u (List.mem_cons_of_mem _ hu))
          (fun u hu => hch u (List.mem_cons_of_mem _ hu))⟩
        intro b hb
        have hw2ne : w2 ≠ [] := hne w2 (List.mem_cons_of_mem _ (List.mem_cons_self _ _))
        rw [joinSpace_head? hw2ne] at hb
        cases w2 with
        | nil => exact absurd rfl hw2ne
        | cons z zs =>
          simp at hb
          subst hb
          intro hcontra
          have := hch (z :: zs) (List.mem_cons_of_mem _ (List.mem_cons_self _ _)) z
            (List.mem_cons_self _ _)
          rw [this] at hcontra
          exact Bool.false_ne_true hcontra.2
      · intro x hx y hy
        have hxmem : x ∈ w := by
          cases hgl : w.getLast? with
          | none => rw [hgl] at hx; simp at hx
          | some b =>
            rw [hgl] at hx
            simp at hx
            subst hx
            obtain ⟨ys, hys⟩ := List.getLast?_eq_some_iff.mp hgl
            rw [hys]
            simp
        intro hcontra
        have := hch w (List.mem_cons_self _ _) x hxmem
        rw [this] at hcontra
        exact Bool.false_ne_true hcontra.1

lemma capitalizeWord_ne_nil {w : List Char} (h : w ≠ []) : capitalizeWord w ≠ [] := by
  cases w with
  | nil => exact absurd rfl h
  | cons c t => simp [capitalizeWord]

lemma capitalizeWord_not_ws {w : List Char} (h : ∀ c ∈ w, jsWs c = false) :
    ∀ c ∈ capitalizeWord w, jsWs c = false := by
  cases w with
  | nil => intro c hc; simp [capitalizeWord] at hc
  | cons d t =>
    intro c hc
    simp only [capitalizeWord] at hc
    rcases List.mem_cons.mp hc with h1 | h1
    · subst h1
      rw [jsWs_toUpper]
      exact h d (List.mem_cons_self _ _)
    · obtain ⟨e, he, hee⟩ := List.mem_map.mp h1
      subst hee
      rw [jsWs_toLower]
      exact h e (List.mem_cons_of_mem _ he)

lemma capitalizeWord_tagFree {w : List Char} (h : '<' ∉ w) : '<' ∉ capitalizeWord w := by
  cases w with
  | nil => simp [capitalizeWord]
  | cons d t =>
    intro hc
    simp only [capitalizeWord] at hc
    rcases List.mem_cons.mp hc with h1 | h1
    · exact h (((toUpper_eq_lt_iff d).mp h1.symm) ▸ List.mem_cons_self _ _)
    · obtain ⟨e, he, hee⟩ := List.mem_map.mp h1
      exact h (((toLower_eq_lt_iff e).mp hee) ▸ List.mem_cons_of_mem _ he)

lemma capitalizeWord_idem (w : List Char) :
    capitalizeWord (capitalizeWord w) = capitalizeWord w := by
  cases w with
  | nil => rfl
  | cons c t =>
    simp only [capitalizeWord, List.map_map]
    rw [toUpper_toUpper]
    congr 1
    apply List.map_congr_left
    intro e _
    exact toLower_toLower e


lemma sanitizeName_eq {l : List Char} (hl : l ≠ []) :
    sanitizeName l = joinSpace ((splitSpace (sanitizeInput l)).map capitalizeWord) := by
  unfold sanitizeName
  rw [if_neg hl]

lemma sanitizeName_idem_of_tagFree {l : List Char} (h : '<' ∉ l) :
    sanitizeName (sanitizeName l) = sanitizeName l := by
  by_cases hl : l = []
  · subst hl; rfl
  rw [sanitizeName_eq hl]
  have hyeq : sanitizeInput l = collapseWs (jsTrim l) := sanitizeInput_eq_of_tagFree h
  by_cases hy : sanitizeInput l = []
  · rw [hy]
    rfl
  · have hhead : ∀ c, (sanitizeInput l).head? = some c → jsWs c = false := by
      rw [hyeq]; exact fun c hc => trimmed_collapsed_head hc
    have hlast : ∀ c, (sanitizeInput l).getLast? = some c → jsWs c = false := by
      rw [hyeq]; exact fun c hc => trimmed_collapsed_last hc
    have hnorm := collapse_normal (jsTrim l).length (jsTrim l) (le_refl _)
    have hwss : wsIsSpace (sanitizeInput l) := hyeq ▸ hnorm.1
    have hnwr : noWsRun (sanitizeInput l) := hyeq ▸ hnorm.2
    have hytf : '<' ∉ sanitizeInput l := by
      rw [hyeq]
      intro hm
      rcases mem_collapseWs (jsTrim l).length (jsTrim l) (le_refl _) '<' hm with h1 | h1
      · exact absurd h1 (by decide)
      · exact h (mem_jsTrim h1)
    have hwords := splitSpace_words (sanitizeInput l).length (sanitizeInput l) (le_refl _)
      hy hhead hlast hwss hnwr
    have hcapsne : (splitSpace (sanitizeInput l)).map capitalizeWord ≠ [] := by
      intro hn
      exact splitSpace_ne_nil _ (List.map_eq_nil_iff.mp hn)
    have hcaps_nonempty : ∀ v ∈ (splitSpace (sanitizeInput l)).map capitalizeWord, v ≠ [] := by
      intro v hv
      obtain ⟨w, hw, hwv⟩ := List.mem_map.mp hv
      subst hwv
      exact capitalizeWord_ne_nil (hwords w hw).1
    have hcaps_notws : ∀ v ∈ (splitSpace (sanitizeInput l)).map capitalizeWord,
        ∀ c ∈ v, jsWs c = false := by
      intro v hv
      obtain ⟨w, hw, hwv⟩ := List.mem_map.mp hv
      subst hwv
      exact capitalizeWord_not_ws (hwords w hw).2
    have hcaps_nospace : ∀ v ∈ (splitSpace (sanitizeInput l)).map capitalizeWord, ' ' ∉ v := by
      intro v hv hsp
      have := hcaps_notws v hv ' ' hsp
      simp [jsWs] at this
    have hcaps_tagFree : ∀ v ∈ (splitSpace (sanitizeInput l)).map capitalizeWord, '<' ∉ v := by
      intro v hv
      obtain ⟨w, hw, hwv⟩ := List.mem_map.mp hv
      subst hwv
      apply capitalizeWord_tagFree
      intro hm
      exact hytf (mem_of_mem_splitSpace _ w hw '<' hm)
    have hzne : joinSpace ((splitSpace (sanitizeInput l)).map capitalizeWord) ≠ [] :=
      joinSpace_ne_nil hcapsne hcaps_nonempty
    have hz_head : ∀ c, (joinSpace ((splitSpace (sanitizeInput l)).map capitalizeWord)).head? =
        some c → jsWs c = false := by
      intro c hcz
      cases hcp : (splitSpace (sanitizeInput l)).map capitalizeWord with
      | nil => exact absurd hcp hcapsne
      | cons v vs =>
        have hvne : v ≠ [] := hcaps_nonempty v (hcp ▸ List.mem_cons_self _ _)
        rw [hcp, joinSpace_head? hvne] at hcz
        cases v with
        | nil => exact absurd rfl hvne
        | cons a t =>
          simp at hcz
          rw [← hcz]
          exact hcaps_notws _ (hcp ▸ List.mem_cons_self _ _) a (List.mem_cons_self _ _)
    have hz_last : ∀ c, (joinSpace ((splitSpace (sanitizeInput l)).map capitalizeWord)).getLast? =
        some c → jsWs c = false := by
      intro c hcz
      obtain ⟨w, hw, hweq⟩ := joinSpace_getLast? _ hcapsne hcaps_nonempty
      rw [hweq] at hcz
      obtain ⟨ys, hys⟩ := List.getLast?_eq_some_iff.mp hcz
      exact hcaps_notws w hw c (by rw [hys]; simp)
    have hz_ws : wsIsSpace (joinSpace ((splitSpace (sanitizeInput l)).map capitalizeWord)) :=
      joinSpace_wsIsSpace hcaps_notws
    have hz_run : noWsRun (joinSpace ((splitSpace (sanitizeInput l)).map capitalizeWord)) :=
      joinSpace_noWsRun _ hcaps_nonempty hcaps_notws
    have hz_tf : '<' ∉ joinSpace ((splitSpace (sanitizeInput l)).map capitalizeWord) := by
      intro hm
      rcases mem_joinSpace _ '<' hm with h1 | ⟨w, hw, hcw⟩
      · exact absurd h1 (by decide)
      · exact hcaps_tagFree w hw hcw
    rw [sanitizeName_eq hzne]
    rw [normalized_fix hz_head hz_last hz_ws hz_run hz_tf]
    rw [splitSpace_joinSpace _ hcapsne hcaps_nospace]
    congr 1
    rw [List.map_map]
    apply List.map_congr_left
    intro w _
    exact capitalizeWord_idem w

lemma sanitizeOptional_idem {v : Option (List Char)} (h : optFieldOk v) :
    sanitizeOptional (sanitizeOptional v) = sanitizeOptional v := by
  cases v with
  | none => rfl
  | some s =>
    rcases h with hnil | ⟨htf, htr⟩
    · subst hnil
      rfl
    · have hs : s ≠ [] := by
        intro hn
        subst hn
        exact htr rfl
      have hine : sanitizeInput s ≠ [] := sanitizeInput_ne_nil_of htr htf
      have hopt : sanitizeOptional (some s) = some (sanitizeInput s) := by
        simp only [sanitizeOptional]
        rw [if_neg hs]
      have hopt2 : sanitizeOptional (some (sanitizeInput s)) =
          some (sanitizeInput (sanitizeInput s)) := by
        simp only [sanitizeOptional]
        rw [if_neg hine]
      rw [hopt, hopt2, sanitizeInput_idem_of_tagFree htf]

/-- C4, counterexample: a FormData whose message is a lone HTML tag is not a
fixed point of double sanitization: the first pass reduces the message to the
empty string (kept as a string), the second pass turns that empty string into
undefined, so sanitizeFormData is not idempotent. -/
theorem C4_counterexample :
    sanitizeFormData (sanitizeFormData tagOnlyMessageForm) ≠
      sanitizeFormData tagOnlyMessageForm := by
  decide

/-- C4, amended: sanitizeFormData is idempotent on every FormData whose name
contains no HTML-tag opener and whose present optional fields are empty or
tag-free with some non-whitespace character; in general idempotence fails,
because tag stripping can expose edge whitespace that only the second pass
trims, and an optional field sanitized to the empty string becomes undefined
on the second pass. -/
theorem C4_sanitize_idempotent_restricted (x : FormData)
    (hn : tagFree x.name) (hm : optFieldOk x.message) (hc : optFieldOk x.company)
    (hp : optFieldOk x.phone) :
    sanitizeFormData (sanitizeFormData x) = sanitizeFormData x := by
  unfold sanitizeFormData
  simp only [FormData.mk.injEq]
  exact ⟨sanitizeName_idem_of_tagFree hn, sanitizeEmail_idem x.email, trivial,
    sanitizeOptional_idem hm, sanitizeOptional_idem hc, sanitizeOptional_idem hp⟩

/-- Witness for C4's amended theorem at a concrete tag-free input. -/
theorem C4_sanitize_idempotent_restricted_witness :
    sanitizeFormData (sanitizeFormData c4WitnessInput) = sanitizeFormData c4WitnessInput :=
  C4_sanitize_idempotent_restricted c4WitnessInput (by decide) (by decide) (by decide) (by decide)

end Vibe
